import Mathlib

/-!
Verification of the habitat-ranking pipeline (`src/habitat_ranker.py`).

The script models habitat patches as nodes of a weighted directed graph,
computes pairwise connectivity weights with `calculate_edge_weight`, builds
the graph with a strict pruning threshold, runs a damped power iteration
(`nx.pagerank` in the source; the solver itself is a library call and is
modelled here from the specification, section 4.3), and prints the scores
sorted in descending order by Python's stable `sorted`.

Real-valued quantities are modelled over `ℝ`.  One deliberate modelling
note: `Real.sqrt` returns `0` on negative arguments where IEEE `np.sqrt`
returns NaN; in every place this matters (the strict comparison
`weight > threshold`) both values fail the comparison, so the constructed
graph is the same.
-/

/-- A habitat patch: one row of the input table, with the `id` column used
as the node key and `x`, `y`, `quality` attributes. -/
structure Patch where
  id : String
  x : ℝ
  y : ℝ
  quality : ℝ

/-- `calculate_edge_weight` from the source: Euclidean distance between the
two patches, exponential distance decay `exp (-distance / dispersal_dist)`,
quality factor `sqrt (quality1 * quality2)`, and the product of the two. -/
noncomputable def calculate_edge_weight (patch1 patch2 : Patch) (dispersal_dist : ℝ) : ℝ :=
  Real.exp (-(Real.sqrt ((patch1.x - patch2.x) ^ 2 + (patch1.y - patch2.y) ^ 2)) / dispersal_dist)
    * Real.sqrt (patch1.quality * patch2.quality)

/-- The double loop of the network-construction step in `main`: for every
ordered pair of rows with distinct ids, compute the weight and keep the
edge `(source_id, target_id, weight)` exactly when `weight > threshold`
(strict). -/
noncomputable def buildEdges (patches : List Patch) (dispersal_dist threshold : ℝ) :
    List (String × String × ℝ) :=
  patches.flatMap fun s =>
    patches.filterMap fun t =>
      if s.id ≠ t.id ∧ calculate_edge_weight s t dispersal_dist > threshold then
        some (s.id, t.id, calculate_edge_weight s t dispersal_dist)
      else none

/-- Insert a node key, keeping the first occurrence's position (the
behaviour of repeated `G.add_node` calls on a `networkx` graph: the node
set is insertion-ordered and a repeated key is not added again). -/
def insertUnique (l : List String) (a : String) : List String :=
  if a ∈ l then l else l ++ [a]

/-- The node list of the built graph: ids in first-insertion order, one
node per distinct id (later rows with a repeated id only overwrite the
node's attributes). -/
def nodeIds (patches : List Patch) : List String :=
  patches.foldl (fun acc p => insertUnique acc p.id) []

/-- The weight attribute of edge `u → v` in the built graph: repeated
`G.add_edge u v` calls overwrite, so the last computed weight for the pair
wins, and a missing edge reads as weight `0` in the transition matrix. -/
def edgeWeightLookup (edges : List (String × String × ℝ)) (u v : String) : ℝ :=
  match (edges.filter fun e => e.1 == u && e.2.1 == v).getLast? with
  | some e => e.2.2
  | none => 0

/-- The weighted adjacency matrix of the built graph, indexed by position
in the node list. -/
noncomputable def pipelineMatrix (patches : List Patch) (dispersal_dist threshold : ℝ) :
    Fin (nodeIds patches).length → Fin (nodeIds patches).length → ℝ :=
  fun i j =>
    edgeWeightLookup (buildEdges patches dispersal_dist threshold)
      ((nodeIds patches).get i) ((nodeIds patches).get j)

/-- Total outgoing weight of a node; a node is dangling when this is `0`. -/
noncomputable def outWeight (n : ℕ) (W : Fin n → Fin n → ℝ) (u : Fin n) : ℝ :=
  ∑ v, W u v

/-- Modelled from the spec: the per-step contribution of node `u` to node
`v` in the damped power iteration of section 4.3 (`nx.pagerank` in the
source is an external library call, so the solver is not in the
repository's own code).  A dangling node spreads its mass uniformly
(`1 / n`); any other node follows its outgoing edges with probability
proportional to their weights. -/
noncomputable def contrib (n : ℕ) (W : Fin n → Fin n → ℝ) (u v : Fin n) : ℝ :=
  if outWeight n W u = 0 then 1 / n else W u v / outWeight n W u

/-- Modelled from the spec: one full update of the score vector,
`newScore v = (1 - α) / n + α * Σ_u score u * contrib u v`. -/
noncomputable def pagerankStep (n : ℕ) (W : Fin n → Fin n → ℝ) (α : ℝ) (s : Fin n → ℝ) :
    Fin n → ℝ :=
  fun v => (1 - α) / n + α * ∑ u, s u * contrib n W u v

/-- Modelled from the spec: the L1 change between consecutive iterates,
used in the convergence test. -/
noncomputable def l1Residual (n : ℕ) (s t : Fin n → ℝ) : ℝ :=
  ∑ v, |t v - s v|

/-- Modelled from the spec: the iteration loop.  Each round performs one
update and returns the new iterate when `l1Residual < n * tol`; when the
iteration budget runs out the loop reports a convergence failure carrying
the l1Residual of the last performed update. -/
noncomputable def solveAux (n : ℕ) (W : Fin n → Fin n → ℝ) (α tol : ℝ) :
    ℕ → (Fin n → ℝ) → ℝ → Except ℝ (Fin n → ℝ)
  | 0, _, r => Except.error r
  | fuel + 1, s, _ =>
    if l1Residual n s (pagerankStep n W α s) < n * tol then
      Except.ok (pagerankStep n W α s)
    else
      solveAux n W α tol fuel (pagerankStep n W α s)
        (l1Residual n s (pagerankStep n W α s))

/-- Modelled from the spec: the damped power-iteration solver of section
4.3 (the source delegates to `nx.pagerank`, which is not part of this
repository).  An empty graph yields an empty distribution; otherwise the
iteration starts from the uniform vector `1 / n`. -/
noncomputable def pagerank (n : ℕ) (W : Fin n → Fin n → ℝ) (α tol : ℝ) (maxIter : ℕ) :
    Except ℝ (Fin n → ℝ) :=
  if n = 0 then Except.ok (fun _ => 0)
  else solveAux n W α tol maxIter (fun _ => 1 / n) 0

/-- The descending-by-score order used for the final ranking. -/
def rankOrder (a b : String × ℝ) : Prop :=
  b.2 ≤ a.2

noncomputable instance : DecidableRel rankOrder :=
  fun a b => inferInstanceAs (Decidable (b.2 ≤ a.2))

instance : IsTotal (String × ℝ) rankOrder :=
  ⟨fun a b => (le_total a.2 b.2).symm⟩

instance : IsTrans (String × ℝ) rankOrder :=
  ⟨fun _ _ _ hab hbc => le_trans hbc hab⟩

/-- `sorted(pagerank_scores.items(), key=lambda item: item[1], reverse=True)`:
a stable sort, descending by score, modelled as the insertion sort for
`rankOrder` (stable sorts of a list agree, so this pins down the output
ordering exactly: ties keep their original relative order). -/
noncomputable def sortRanks (l : List (String × ℝ)) : List (String × ℝ) :=
  l.insertionSort rankOrder

/-- The whole pipeline after the data is loaded: build the graph, run the
solver on its adjacency matrix (nodes in insertion order), and sort the
`(id, score)` pairs by descending score. -/
noncomputable def runPipeline (patches : List Patch) (dispersal_dist threshold α tol : ℝ)
    (maxIter : ℕ) : Except ℝ (List (String × ℝ)) :=
  match pagerank (nodeIds patches).length (pipelineMatrix patches dispersal_dist threshold)
      α tol maxIter with
  | Except.error r => Except.error r
  | Except.ok s =>
      Except.ok (sortRanks (List.ofFn fun i => ((nodeIds patches).get i, s i)))

/-! ## Helper lemmas about the graph construction -/

lemma mem_buildEdges {patches : List Patch} {d θ : ℝ} {e : String × String × ℝ} :
    e ∈ buildEdges patches d θ ↔
      ∃ s ∈ patches, ∃ t ∈ patches, s.id ≠ t.id ∧
        calculate_edge_weight s t d > θ ∧ e = (s.id, t.id, calculate_edge_weight s t d) := by
  simp only [buildEdges, List.mem_flatMap, List.mem_filterMap,
    Option.ite_none_right_eq_some, Option.some.injEq]
  constructor
  · rintro ⟨s, hs, t, ht, ⟨hne, hw⟩, he⟩
    exact ⟨s, hs, t, ht, hne, hw, he.symm⟩
  · rintro ⟨s, hs, t, ht, hne, hw, he⟩
    exact ⟨s, hs, t, ht, ⟨hne, hw⟩, he.symm⟩

lemma calculate_edge_weight_same_pos (i1 i2 : String) (x y q1 q2 d : ℝ) :
    calculate_edge_weight ⟨i1, x, y, q1⟩ ⟨i2, x, y, q2⟩ d = Real.sqrt (q1 * q2) := by
  simp [calculate_edge_weight]

/-! ## Claims about the edge-weight model and the graph construction -/

/-- Claim C2: the edge-weight function is symmetric in its two patch
arguments, for every positive dispersal distance. -/
theorem calculate_edge_weight_symm (p1 p2 : Patch) (d : ℝ) (hd : 0 < d) :
    calculate_edge_weight p1 p2 d = calculate_edge_weight p2 p1 d := by
  unfold calculate_edge_weight
  rw [show (p1.x - p2.x) ^ 2 = (p2.x - p1.x) ^ 2 by ring,
    show (p1.y - p2.y) ^ 2 = (p2.y - p1.y) ^ 2 by ring,
    mul_comm p1.quality p2.quality]

theorem calculate_edge_weight_symm_witness :
    (0 : ℝ) < 15 ∧
      calculate_edge_weight ⟨"A", 0, 0, 1⟩ ⟨"B", 10, 0, 2⟩ 15
        = calculate_edge_weight ⟨"B", 10, 0, 2⟩ ⟨"A", 0, 0, 1⟩ 15 :=
  ⟨by norm_num, calculate_edge_weight_symm ⟨"A", 0, 0, 1⟩ ⟨"B", 10, 0, 2⟩ 15 (by norm_num)⟩

/-- Claim C10: on identical arguments the weight function is total and
returns the patch's own quality: distance 0 gives a distance factor of 1
and the quality factor is `sqrt (q * q) = q`; no error is signalled. -/
theorem calculate_edge_weight_self (p : Patch) (d : ℝ) (hq : 0 ≤ p.quality) (hd : 0 < d) :
    calculate_edge_weight p p d = p.quality := by
  unfold calculate_edge_weight
  rw [sub_self, sub_self]
  norm_num [Real.sqrt_zero, Real.exp_zero, Real.sqrt_mul_self hq]

theorem calculate_edge_weight_self_witness :
    (0 : ℝ) ≤ 4 ∧ (0 : ℝ) < 15 ∧ calculate_edge_weight ⟨"A", 2, 3, 4⟩ ⟨"A", 2, 3, 4⟩ 15 = 4 :=
  ⟨by norm_num, by norm_num,
    calculate_edge_weight_self ⟨"A", 2, 3, 4⟩ 15 (by norm_num) (by norm_num)⟩

/-- Claim C5 counterexample: when the other patch's quality is `0`, raising a
patch's quality from `0` to `1` leaves the weight unchanged (both weights are
`0`), so the weight is not strictly increasing in either quality. -/
theorem weight_quality_mono_cex :
    ¬ (calculate_edge_weight ⟨"A", 0, 0, 0⟩ ⟨"B", 3, 4, 0⟩ 15
        < calculate_edge_weight ⟨"A", 0, 0, 1⟩ ⟨"B", 3, 4, 0⟩ 15) := by
  have h1 : calculate_edge_weight ⟨"A", 0, 0, 0⟩ ⟨"B", 3, 4, 0⟩ 15 = 0 := by
    simp [calculate_edge_weight]
  have h2 : calculate_edge_weight ⟨"A", 0, 0, 1⟩ ⟨"B", 3, 4, 0⟩ 15 = 0 := by
    simp [calculate_edge_weight]
  rw [h1, h2]
  exact lt_irrefl 0

/-- Claim C5 amended: for a fixed distance the weight is strictly increasing
in either patch's quality, provided the quality being raised starts
non-negative and the other patch's quality is strictly positive (with the
other quality `0` both weights vanish, see the counterexample). -/
theorem weight_quality_strictMono (i1 i2 : String) (x1 y1 x2 y2 q q' Q d : ℝ)
    (h0 : 0 ≤ q) (hlt : q < q') (hQ : 0 < Q) :
    calculate_edge_weight ⟨i1, x1, y1, q⟩ ⟨i2, x2, y2, Q⟩ d
      < calculate_edge_weight ⟨i1, x1, y1, q'⟩ ⟨i2, x2, y2, Q⟩ d ∧
    calculate_edge_weight ⟨i2, x2, y2, Q⟩ ⟨i1, x1, y1, q⟩ d
      < calculate_edge_weight ⟨i2, x2, y2, Q⟩ ⟨i1, x1, y1, q'⟩ d := by
  unfold calculate_edge_weight
  constructor
  · exact mul_lt_mul_of_pos_left
      (Real.sqrt_lt_sqrt (mul_nonneg h0 hQ.le) (mul_lt_mul_of_pos_right hlt hQ))
      (Real.exp_pos _)
  · exact mul_lt_mul_of_pos_left
      (Real.sqrt_lt_sqrt (mul_nonneg hQ.le h0) (mul_lt_mul_of_pos_left hlt hQ))
      (Real.exp_pos _)

theorem weight_quality_strictMono_witness :
    (0 : ℝ) ≤ 1 ∧ (1 : ℝ) < 2 ∧ (0 : ℝ) < 3 ∧
      (calculate_edge_weight ⟨"A", 0, 0, 1⟩ ⟨"B", 5, 0, 3⟩ 15
          < calculate_edge_weight ⟨"A", 0, 0, 2⟩ ⟨"B", 5, 0, 3⟩ 15 ∧
        calculate_edge_weight ⟨"B", 5, 0, 3⟩ ⟨"A", 0, 0, 1⟩ 15
          < calculate_edge_weight ⟨"B", 5, 0, 3⟩ ⟨"A", 0, 0, 2⟩ 15) :=
  ⟨by norm_num, by norm_num, by norm_num,
    weight_quality_strictMono "A" "B" 0 0 5 0 1 2 3 15 (by norm_num) (by norm_num) (by norm_num)⟩

/-- Claim C1: for patches `u ≠ v` of a collection with unique ids, the graph
contains the directed edge `u.id → v.id` iff the computed weight strictly
exceeds the threshold (an equal-to-threshold weight is excluded), and every
retained edge for that pair carries exactly the computed weight. -/
theorem buildEdges_iff_threshold {patches : List Patch} {d θ : ℝ} {u v : Patch}
    (hnd : (patches.map Patch.id).Nodup) (hu : u ∈ patches) (hv : v ∈ patches)
    (hne : u.id ≠ v.id) :
    ((∃ w, (u.id, v.id, w) ∈ buildEdges patches d θ) ↔ θ < calculate_edge_weight u v d) ∧
    ∀ w, (u.id, v.id, w) ∈ buildEdges patches d θ → w = calculate_edge_weight u v d := by
  have inj := List.inj_on_of_nodup_map hnd
  have key : ∀ w, (u.id, v.id, w) ∈ buildEdges patches d θ →
      w = calculate_edge_weight u v d ∧ θ < calculate_edge_weight u v d := by
    intro w hw
    rcases mem_buildEdges.mp hw with ⟨s, hs, t, ht, hst, hgt, he⟩
    rw [Prod.ext_iff, Prod.ext_iff] at he
    obtain ⟨h1, h2, h3⟩ := he
    obtain rfl : s = u := inj hs hu h1.symm
    obtain rfl : t = v := inj ht hv h2.symm
    exact ⟨h3, hgt⟩
  refine ⟨⟨?_, ?_⟩, fun w hw => (key w hw).1⟩
  · rintro ⟨w, hw⟩
    exact (key w hw).2
  · intro h
    exact ⟨calculate_edge_weight u v d,
      mem_buildEdges.mpr ⟨u, hu, v, hv, hne, h, rfl⟩⟩

theorem buildEdges_iff_threshold_witness :
    ∃ w, ("A", "B", w) ∈ buildEdges [⟨"A", 0, 0, 1⟩, ⟨"B", 0, 0, 1⟩] 15 (1 / 100) :=
  (buildEdges_iff_threshold (u := ⟨"A", 0, 0, 1⟩) (v := ⟨"B", 0, 0, 1⟩)
      (by simp) (by simp) (by simp) (by simp)).1.mpr
    (by rw [calculate_edge_weight_same_pos]; norm_num)

/-- Claim C4: no constructed edge is a self-loop: every retained edge has its
source id different from its target id, for every input collection and every
choice of parameters. -/
theorem buildEdges_no_self_loop {patches : List Patch} {d θ : ℝ} {e : String × String × ℝ}
    (he : e ∈ buildEdges patches d θ) : e.1 ≠ e.2.1 := by
  rcases mem_buildEdges.mp he with ⟨s, _, t, _, hst, _, rfl⟩
  exact hst

theorem buildEdges_no_self_loop_witness :
    (("A", "B", (1 : ℝ)) ∈ buildEdges [⟨"A", 0, 0, 1⟩, ⟨"B", 0, 0, 1⟩] 15 (1 / 100)) ∧
      ("A", "B", (1 : ℝ)).1 ≠ ("A", "B", (1 : ℝ)).2.1 := by
  have hmem : ("A", "B", (1 : ℝ)) ∈ buildEdges [⟨"A", 0, 0, 1⟩, ⟨"B", 0, 0, 1⟩] 15 (1 / 100) := by
    apply mem_buildEdges.mpr
    refine ⟨⟨"A", 0, 0, 1⟩, by simp, ⟨"B", 0, 0, 1⟩, by simp, by simp, ?_, ?_⟩
    · rw [calculate_edge_weight_same_pos]; norm_num
    · rw [calculate_edge_weight_same_pos]; norm_num
  exact ⟨hmem, buildEdges_no_self_loop hmem⟩

/-! ## Helper lemmas about the solver -/

lemma sum_contrib {n : ℕ} (W : Fin n → Fin n → ℝ) (hn : 0 < n) (u : Fin n) :
    ∑ v, contrib n W u v = 1 := by
  have hn' : (n : ℝ) ≠ 0 := Nat.cast_ne_zero.mpr hn.ne'
  unfold contrib
  by_cases h : outWeight n W u = 0
  · rw [Finset.sum_congr rfl (fun v _ => if_pos h), Finset.sum_const, Finset.card_univ,
      Fintype.card_fin, nsmul_eq_mul]
    field_simp
  · rw [Finset.sum_congr rfl (fun v _ => if_neg h), ← Finset.sum_div,
      show ∑ v, W u v = outWeight n W u from rfl]
    exact div_self h

lemma pagerankStep_sum {n : ℕ} (W : Fin n → Fin n → ℝ) (α : ℝ) (s : Fin n → ℝ)
    (hn : 0 < n) (hs : ∑ v, s v = 1) : ∑ v, pagerankStep n W α s v = 1 := by
  have hn' : (n : ℝ) ≠ 0 := Nat.cast_ne_zero.mpr hn.ne'
  unfold pagerankStep
  rw [Finset.sum_add_distrib, Finset.sum_const, Finset.card_univ, Fintype.card_fin,
    nsmul_eq_mul, ← Finset.mul_sum, Finset.sum_comm]
  rw [Finset.sum_congr rfl fun u _ => by rw [← Finset.mul_sum, sum_contrib W hn u, mul_one]]
  rw [hs, mul_one]
  field_simp

lemma pagerankStep_nonneg {n : ℕ} (W : Fin n → Fin n → ℝ) (α : ℝ) (s : Fin n → ℝ)
    (hα0 : 0 ≤ α) (hα1 : α ≤ 1) (hW : ∀ u v, 0 ≤ W u v) (hs : ∀ v, 0 ≤ s v) (v : Fin n) :
    0 ≤ pagerankStep n W α s v := by
  have houtw : ∀ u, 0 ≤ outWeight n W u := fun u => Finset.sum_nonneg fun w _ => hW u w
  unfold pagerankStep
  apply add_nonneg
  · exact div_nonneg (by linarith) (Nat.cast_nonneg n)
  · refine mul_nonneg hα0 (Finset.sum_nonneg fun u _ => mul_nonneg (hs u) ?_)
    unfold contrib
    by_cases h : outWeight n W u = 0
    · rw [if_pos h]
      positivity
    · rw [if_neg h]
      exact div_nonneg (hW u v) (houtw u)

lemma solveAux_ok_inv {n : ℕ} (W : Fin n → Fin n → ℝ) (α tol : ℝ)
    (hn : 0 < n) (hα0 : 0 ≤ α) (hα1 : α ≤ 1) (hW : ∀ u v, 0 ≤ W u v) :
    ∀ (fuel : ℕ) (s : Fin n → ℝ) (r0 : ℝ) (t : Fin n → ℝ),
      (∀ v, 0 ≤ s v) → (∑ v, s v = 1) →
      solveAux n W α tol fuel s r0 = Except.ok t →
      (∀ v, 0 ≤ t v) ∧ ∑ v, t v = 1 := by
  intro fuel
  induction fuel with
  | zero =>
    intro s r0 t _ _ h
    simp [solveAux] at h
  | succ m ih =>
    intro s r0 t hs0 hs1 h
    rw [solveAux] at h
    by_cases hc : l1Residual n s (pagerankStep n W α s) < n * tol
    · rw [if_pos hc] at h
      obtain rfl := Except.ok.inj h
      exact ⟨pagerankStep_nonneg W α s hα0 hα1 hW hs0, pagerankStep_sum W α s hn hs1⟩
    · rw [if_neg hc] at h
      exact ih _ _ _ (pagerankStep_nonneg W α s hα0 hα1 hW hs0)
        (pagerankStep_sum W α s hn hs1) h

lemma solveAux_error_inv {n : ℕ} (W : Fin n → Fin n → ℝ) (α tol : ℝ) :
    ∀ (m : ℕ) (s : Fin n → ℝ) (r0 r : ℝ),
      solveAux n W α tol (m + 1) s r0 = Except.error r →
      ¬ (r < n * tol) ∧ ∃ p, r = l1Residual n p (pagerankStep n W α p) := by
  intro m
  induction m with
  | zero =>
    intro s r0 r h
    rw [solveAux] at h
    by_cases hc : l1Residual n s (pagerankStep n W α s) < n * tol
    · rw [if_pos hc] at h
      cases h
    · rw [if_neg hc, solveAux] at h
      have := Except.error.inj h
      subst this
      exact ⟨hc, s, rfl⟩
  | succ m ih =>
    intro s r0 r h
    rw [solveAux] at h
    by_cases hc : l1Residual n s (pagerankStep n W α s) < n * tol
    · rw [if_pos hc] at h
      cases h
    · rw [if_neg hc] at h
      exact ih _ _ _ h

lemma solveAux_ok_conv {n : ℕ} (W : Fin n → Fin n → ℝ) (α tol : ℝ) :
    ∀ (fuel : ℕ) (s : Fin n → ℝ) (r0 : ℝ) (t : Fin n → ℝ),
      solveAux n W α tol fuel s r0 = Except.ok t →
      ∃ p, t = pagerankStep n W α p ∧ l1Residual n p t < n * tol := by
  intro fuel
  induction fuel with
  | zero =>
    intro s r0 t h
    simp [solveAux] at h
  | succ m ih =>
    intro s r0 t h
    rw [solveAux] at h
    by_cases hc : l1Residual n s (pagerankStep n W α s) < n * tol
    · rw [if_pos hc] at h
      obtain rfl := Except.ok.inj h
      exact ⟨s, rfl, hc⟩
    · rw [if_neg hc] at h
      exact ih _ _ _ h

/-! ## Claims about the solver -/

/-- Claim C3: whenever the solver returns a distribution for a graph with
`n ≥ 1` nodes (non-negative edge weights, damping factor in `[0, 1]`,
non-negative tolerance), every score is non-negative and the scores sum to
`1` within `n * tolerance` (in exact real arithmetic the sum is exactly
`1`). -/
theorem pagerank_normalized {n : ℕ} (W : Fin n → Fin n → ℝ) (α tol : ℝ) (maxIter : ℕ)
    (scores : Fin n → ℝ) (hn : 1 ≤ n) (hα0 : 0 ≤ α) (hα1 : α ≤ 1) (htol : 0 ≤ tol)
    (hW : ∀ u v, 0 ≤ W u v) (h : pagerank n W α tol maxIter = Except.ok scores) :
    (∀ v, 0 ≤ scores v) ∧ |(∑ v, scores v) - 1| ≤ n * tol := by
  have hn0 : 0 < n := hn
  have hn' : (n : ℝ) ≠ 0 := Nat.cast_ne_zero.mpr hn0.ne'
  unfold pagerank at h
  rw [if_neg hn0.ne'] at h
  obtain ⟨h1, h2⟩ := solveAux_ok_inv W α tol hn0 hα0 hα1 hW maxIter _ 0 scores
    (fun v => by positivity)
    (by
      rw [Finset.sum_const, Finset.card_univ, Fintype.card_fin, nsmul_eq_mul]
      field_simp) h
  refine ⟨h1, ?_⟩
  rw [h2]
  simp only [sub_self, abs_zero]
  exact mul_nonneg (Nat.cast_nonneg n) htol

lemma pagerank_one_eval {W : Fin 1 → Fin 1 → ℝ} {α tol : ℝ} (hW : W 0 0 = 0)
    (htol : 0 < tol) : pagerank 1 W α tol 1 = Except.ok (fun _ => 1) := by
  have hout : ∀ u : Fin 1, outWeight 1 W u = 0 := by
    intro u
    fin_cases u
    simp [outWeight, hW]
  have hinit : (fun _ : Fin 1 => 1 / ((1 : ℕ) : ℝ)) = fun _ => (1 : ℝ) := by
    funext v
    norm_num
  have hstep : pagerankStep 1 W α (fun _ => (1 : ℝ)) = fun _ => 1 := by
    funext v
    simp [pagerankStep, contrib, hout]
  have hres : l1Residual 1 (fun _ => (1 : ℝ)) (fun _ => (1 : ℝ)) = 0 := by
    simp [l1Residual]
  unfold pagerank
  rw [if_neg one_ne_zero, hinit, solveAux, hstep, hres, if_pos (by simpa using htol)]

theorem pagerank_normalized_witness :
    (∀ v : Fin 1, (0 : ℝ) ≤ (fun _ : Fin 1 => (1 : ℝ)) v) ∧
      |(∑ v : Fin 1, (fun _ : Fin 1 => (1 : ℝ)) v) - 1| ≤ ((1 : ℕ) : ℝ) * (1 / 100) :=
  pagerank_normalized (fun _ _ => 0) (17 / 20) (1 / 100) 1 (fun _ => 1)
    le_rfl (by norm_num) (by norm_num) (by norm_num) (fun _ _ => le_rfl)
    (pagerank_one_eval rfl (by norm_num))

/-- Claim C8: for a non-empty graph and at least one allowed iteration, the
solver reports a convergence failure exactly when the last update's residual
fails the convergence test, and the reported value is that last residual; a
returned distribution is always an iterate that passed the test, never a
non-converged vector. -/
theorem pagerank_convergence_failure {n : ℕ} (W : Fin n → Fin n → ℝ) (α tol : ℝ)
    (maxIter : ℕ) (hn : 0 < n) (hm : 1 ≤ maxIter) :
    (∀ r, pagerank n W α tol maxIter = Except.error r →
        ¬ (r < n * tol) ∧ ∃ s, r = l1Residual n s (pagerankStep n W α s)) ∧
    (∀ t, pagerank n W α tol maxIter = Except.ok t →
        ∃ s, t = pagerankStep n W α s ∧ l1Residual n s t < n * tol) := by
  obtain ⟨m, rfl⟩ : ∃ m, maxIter = m + 1 := ⟨maxIter - 1, (Nat.succ_pred_eq_of_pos hm).symm⟩
  unfold pagerank
  rw [if_neg hn.ne']
  exact ⟨fun r h => solveAux_error_inv W α tol m _ 0 r h,
    fun t h => solveAux_ok_conv W α tol (m + 1) _ 0 t h⟩

lemma pagerank_one_fail_eval :
    pagerank 1 (fun _ _ => (0 : ℝ)) (17 / 20) 0 1 = Except.error 0 := by
  have hout : ∀ u : Fin 1, outWeight 1 (fun _ _ => (0 : ℝ)) u = 0 := by
    intro u
    simp [outWeight]
  have hinit : (fun _ : Fin 1 => 1 / ((1 : ℕ) : ℝ)) = fun _ => (1 : ℝ) := by
    funext v
    norm_num
  have hstep : pagerankStep 1 (fun _ _ => (0 : ℝ)) (17 / 20) (fun _ => (1 : ℝ)) = fun _ => 1 := by
    funext v
    simp [pagerankStep, contrib, hout]
  have hres : l1Residual 1 (fun _ => (1 : ℝ)) (fun _ => (1 : ℝ)) = 0 := by
    simp [l1Residual]
  unfold pagerank
  rw [if_neg one_ne_zero, hinit, solveAux, hstep, hres, if_neg (by norm_num), solveAux]

theorem pagerank_convergence_failure_witness :
    ¬ ((0 : ℝ) < ((1 : ℕ) : ℝ) * 0) ∧
      ∃ s, (0 : ℝ) = l1Residual 1 s (pagerankStep 1 (fun _ _ => (0 : ℝ)) (17 / 20) s) :=
  (pagerank_convergence_failure (fun _ _ => (0 : ℝ)) (17 / 20) 0 1 one_pos le_rfl).1 0
    pagerank_one_fail_eval

/-! ## Helper lemmas about the node list and the assembled pipeline -/

lemma insertUnique_self (l : List String) (a : String) : a ∈ insertUnique l a := by
  unfold insertUnique
  split
  · assumption
  · simp

lemma mem_insertUnique_of_mem {l : List String} {b : String} (h : b ∈ l) (a : String) :
    b ∈ insertUnique l a := by
  unfold insertUnique
  split
  · exact h
  · simp [h]

lemma mem_foldl_insertUnique (rest : List Patch) :
    ∀ (acc : List String) (a : String), a ∈ acc →
      a ∈ rest.foldl (fun acc p => insertUnique acc p.id) acc := by
  induction rest with
  | nil =>
    intro acc a ha
    simpa using ha
  | cons p rest ih =>
    intro acc a ha
    exact ih _ _ (mem_insertUnique_of_mem ha p.id)

lemma id_mem_nodeIds {patches : List Patch} {p : Patch} (hp : p ∈ patches) :
    p.id ∈ nodeIds patches := by
  unfold nodeIds
  have aux : ∀ (l : List Patch) (acc : List String), p ∈ l →
      p.id ∈ l.foldl (fun acc q => insertUnique acc q.id) acc := by
    intro l
    induction l with
    | nil =>
      intro acc h
      cases h
    | cons q l ih =>
      intro acc h
      rcases List.mem_cons.mp h with h | h
      · subst h
        exact mem_foldl_insertUnique l _ _ (insertUnique_self acc p.id)
      · exact ih _ h
  exact aux patches [] hp

lemma insertUnique_nodup {l : List String} (h : l.Nodup) (a : String) :
    (insertUnique l a).Nodup := by
  unfold insertUnique
  by_cases ha : a ∈ l
  · rw [if_pos ha]
    exact h
  · rw [if_neg ha]
    refine List.Nodup.append h (List.nodup_singleton a) ?_
    intro x hx hx'
    rw [List.mem_singleton] at hx'
    exact ha (hx' ▸ hx)

lemma nodeIds_nodup (patches : List Patch) : (nodeIds patches).Nodup := by
  unfold nodeIds
  have aux : ∀ (l : List Patch) (acc : List String), acc.Nodup →
      (l.foldl (fun acc q => insertUnique acc q.id) acc).Nodup := by
    intro l
    induction l with
    | nil =>
      intro acc h
      simpa using h
    | cons q l ih =>
      intro acc h
      exact ih _ (insertUnique_nodup h q.id)
  exact aux patches [] List.nodup_nil

lemma runPipeline_ok_elim {patches : List Patch} {d θ α tol : ℝ} {maxIter : ℕ}
    {r : List (String × ℝ)} (h : runPipeline patches d θ α tol maxIter = Except.ok r) :
    ∃ s, pagerank (nodeIds patches).length (pipelineMatrix patches d θ) α tol maxIter
        = Except.ok s ∧
      r = sortRanks (List.ofFn fun i => ((nodeIds patches).get i, s i)) := by
  unfold runPipeline at h
  cases hpg : pagerank (nodeIds patches).length (pipelineMatrix patches d θ) α tol maxIter with
  | error e =>
    simp only [hpg] at h
    cases h
  | ok s =>
    simp only [hpg] at h
    exact ⟨s, rfl, (Except.ok.inj h).symm⟩

lemma runPipeline_ok_intro {patches : List Patch} {d θ α tol : ℝ} {maxIter : ℕ}
    {s : Fin (nodeIds patches).length → ℝ}
    (h : pagerank (nodeIds patches).length (pipelineMatrix patches d θ) α tol maxIter
        = Except.ok s) :
    runPipeline patches d θ α tol maxIter
      = Except.ok (sortRanks (List.ofFn fun i => ((nodeIds patches).get i, s i))) := by
  unfold runPipeline
  rw [h]

lemma runPipeline_ok_ids {patches : List Patch} {d θ α tol : ℝ} {maxIter : ℕ}
    {r : List (String × ℝ)} (h : runPipeline patches d θ α tol maxIter = Except.ok r) :
    (r.map Prod.fst).Perm (nodeIds patches) := by
  obtain ⟨s, _, rfl⟩ := runPipeline_ok_elim h
  have h1 : ((sortRanks (List.ofFn fun i => ((nodeIds patches).get i, s i))).map Prod.fst).Perm
      ((List.ofFn fun i => ((nodeIds patches).get i, s i)).map Prod.fst) :=
    (List.perm_insertionSort rankOrder _).map Prod.fst
  have h2 : (List.ofFn fun i => ((nodeIds patches).get i, s i)).map Prod.fst
      = nodeIds patches := by
    rw [List.map_ofFn]
    exact List.ofFn_get _
  rw [h2] at h1
  exact h1

/-! ## Claims about the final ranking order -/

/-- Claim C9 amended: the final output lists one `(identifier, score)` pair
per graph node, sorted by score descending; equal scores keep the nodes'
insertion order (Python's `sorted` is stable), not identifier-ascending
order. -/
theorem runPipeline_sorted {patches : List Patch} {d θ α tol : ℝ} {maxIter : ℕ}
    {r : List (String × ℝ)} (h : runPipeline patches d θ α tol maxIter = Except.ok r) :
    r.Sorted rankOrder ∧ (r.map Prod.fst).Perm (nodeIds patches) := by
  have hids := runPipeline_ok_ids h
  obtain ⟨s, _, rfl⟩ := runPipeline_ok_elim h
  exact ⟨List.sorted_insertionSort rankOrder _, hids⟩

/-! ## Concrete evaluations of the pipeline -/

lemma pagerank_two_eval {W : Fin 2 → Fin 2 → ℝ} {α tol : ℝ}
    (h00 : W 0 0 = 0) (h01 : W 0 1 = 1) (h10 : W 1 0 = 1) (h11 : W 1 1 = 0)
    (htol : 0 < tol) :
    pagerank 2 W α tol 1 = Except.ok (fun _ => 1 / 2) := by
  have hout : ∀ u : Fin 2, outWeight 2 W u = 1 := by
    intro u
    fin_cases u <;> simp [outWeight, Fin.sum_univ_two, h00, h01, h10, h11]
  have hinit : (fun _ : Fin 2 => 1 / ((2 : ℕ) : ℝ)) = fun _ => (1 / 2 : ℝ) := by
    funext v
    norm_num
  have hstep : pagerankStep 2 W α (fun _ => (1 / 2 : ℝ)) = fun _ => 1 / 2 := by
    funext v
    fin_cases v <;>
    · simp [pagerankStep, contrib, hout, Fin.sum_univ_two, h00, h01, h10, h11]
      ring
  have hres : l1Residual 2 (fun _ => (1 / 2 : ℝ)) (fun _ => (1 / 2 : ℝ)) = 0 := by
    simp [l1Residual]
  unfold pagerank
  rw [if_neg (by norm_num), hinit, solveAux, hstep, hres,
    if_pos (mul_pos (by norm_num) htol)]

lemma pagerank_two_dangling_eval {W : Fin 2 → Fin 2 → ℝ} {α tol : ℝ}
    (hW : ∀ i j, W i j = 0) (htol : 0 < tol) :
    pagerank 2 W α tol 1 = Except.ok (fun _ => 1 / 2) := by
  have hout : ∀ u : Fin 2, outWeight 2 W u = 0 := by
    intro u
    simp [outWeight, hW]
  have hinit : (fun _ : Fin 2 => 1 / ((2 : ℕ) : ℝ)) = fun _ => (1 / 2 : ℝ) := by
    funext v
    norm_num
  have hstep : pagerankStep 2 W α (fun _ => (1 / 2 : ℝ)) = fun _ => 1 / 2 := by
    funext v
    simp [pagerankStep, contrib, hout, Fin.sum_univ_two]
    ring
  have hres : l1Residual 2 (fun _ => (1 / 2 : ℝ)) (fun _ => (1 / 2 : ℝ)) = 0 := by
    simp [l1Residual]
  unfold pagerank
  rw [if_neg (by norm_num), hinit, solveAux, hstep, hres,
    if_pos (mul_pos (by norm_num) htol)]

lemma runPipeline_BA_eval :
    runPipeline [⟨"B", 0, 0, 1⟩, ⟨"A", 0, 0, 1⟩] 15 (1 / 100) (17 / 20) (1 / 100) 1
      = Except.ok [("B", 1 / 2), ("A", 1 / 2)] := by
  have hw1 : calculate_edge_weight ⟨"B", 0, 0, 1⟩ ⟨"A", 0, 0, 1⟩ 15 = 1 := by
    rw [calculate_edge_weight_same_pos]
    norm_num
  have hw2 : calculate_edge_weight ⟨"A", 0, 0, 1⟩ ⟨"B", 0, 0, 1⟩ 15 = 1 := by
    rw [calculate_edge_weight_same_pos]
    norm_num
  have hedges : buildEdges [⟨"B", 0, 0, 1⟩, ⟨"A", 0, 0, 1⟩] 15 (1 / 100)
      = [("B", "A", 1), ("A", "B", 1)] := by
    simp [buildEdges, List.filterMap_cons, hw1, hw2]
    norm_num
  have hpg : pagerank (nodeIds [⟨"B", 0, 0, 1⟩, ⟨"A", 0, 0, 1⟩]).length
      (pipelineMatrix [⟨"B", 0, 0, 1⟩, ⟨"A", 0, 0, 1⟩] 15 (1 / 100)) (17 / 20) (1 / 100) 1
      = Except.ok (fun _ => 1 / 2) := by
    refine pagerank_two_eval ?_ ?_ ?_ ?_ (by norm_num) <;>
    · show edgeWeightLookup (buildEdges [⟨"B", 0, 0, 1⟩, ⟨"A", 0, 0, 1⟩] 15 (1 / 100)) _ _ = _
      rw [hedges]
      rfl
  rw [runPipeline_ok_intro hpg]
  have hlist : (List.ofFn fun i : Fin (nodeIds [⟨"B", 0, 0, 1⟩, ⟨"A", 0, 0, 1⟩]).length =>
      ((nodeIds [⟨"B", 0, 0, 1⟩, ⟨"A", 0, 0, 1⟩]).get i, (1 / 2 : ℝ)))
      = [("B", 1 / 2), ("A", 1 / 2)] := rfl
  rw [hlist]
  have hsort : sortRanks [("B", (1 / 2 : ℝ)), ("A", 1 / 2)] = [("B", 1 / 2), ("A", 1 / 2)] := by
    simp [sortRanks, List.insertionSort, List.orderedInsert, rankOrder]
  rw [hsort]

lemma runPipeline_dup_eval :
    runPipeline [⟨"A", 0, 0, 1⟩, ⟨"A", 5, 0, 2⟩] 15 (1 / 100) (17 / 20) (1 / 100) 1
      = Except.ok [("A", 1)] := by
  have hedges : buildEdges [⟨"A", 0, 0, 1⟩, ⟨"A", 5, 0, 2⟩] 15 (1 / 100) = [] := by
    simp [buildEdges, List.filterMap_cons]
  have hpg : pagerank (nodeIds [⟨"A", 0, 0, 1⟩, ⟨"A", 5, 0, 2⟩]).length
      (pipelineMatrix [⟨"A", 0, 0, 1⟩, ⟨"A", 5, 0, 2⟩] 15 (1 / 100)) (17 / 20) (1 / 100) 1
      = Except.ok (fun _ => 1) := by
    refine pagerank_one_eval ?_ (by norm_num)
    show edgeWeightLookup (buildEdges [⟨"A", 0, 0, 1⟩, ⟨"A", 5, 0, 2⟩] 15 (1 / 100)) _ _ = _
    rw [hedges]
    rfl
  rw [runPipeline_ok_intro hpg]
  have hlist : (List.ofFn fun i : Fin (nodeIds [⟨"A", 0, 0, 1⟩, ⟨"A", 5, 0, 2⟩]).length =>
      ((nodeIds [⟨"A", 0, 0, 1⟩, ⟨"A", 5, 0, 2⟩]).get i, (1 : ℝ)))
      = [("A", 1)] := rfl
  rw [hlist]
  have hsort : sortRanks [("A", (1 : ℝ))] = [("A", 1)] := by
    simp [sortRanks, List.insertionSort, List.orderedInsert]
  rw [hsort]

lemma runPipeline_neg_eval :
    runPipeline [⟨"A", 0, 0, -1⟩, ⟨"B", 0, 0, 1⟩] 15 (1 / 100) (17 / 20) (1 / 100) 1
      = Except.ok [("A", 1 / 2), ("B", 1 / 2)] := by
  have hw1 : calculate_edge_weight ⟨"A", 0, 0, -1⟩ ⟨"B", 0, 0, 1⟩ 15 = 0 := by
    rw [calculate_edge_weight_same_pos, Real.sqrt_eq_zero']
    norm_num
  have hw2 : calculate_edge_weight ⟨"B", 0, 0, 1⟩ ⟨"A", 0, 0, -1⟩ 15 = 0 := by
    rw [calculate_edge_weight_same_pos, Real.sqrt_eq_zero']
    norm_num
  have hedges : buildEdges [⟨"A", 0, 0, -1⟩, ⟨"B", 0, 0, 1⟩] 15 (1 / 100) = [] := by
    simp [buildEdges, List.filterMap_cons, hw1, hw2]
    norm_num
  have hpg : pagerank (nodeIds [⟨"A", 0, 0, -1⟩, ⟨"B", 0, 0, 1⟩]).length
      (pipelineMatrix [⟨"A", 0, 0, -1⟩, ⟨"B", 0, 0, 1⟩] 15 (1 / 100)) (17 / 20) (1 / 100) 1
      = Except.ok (fun _ => 1 / 2) := by
    refine pagerank_two_dangling_eval ?_ (by norm_num)
    intro i j
    show edgeWeightLookup (buildEdges [⟨"A", 0, 0, -1⟩, ⟨"B", 0, 0, 1⟩] 15 (1 / 100)) _ _ = _
    rw [hedges]
    rfl
  rw [runPipeline_ok_intro hpg]
  have hlist : (List.ofFn fun i : Fin (nodeIds [⟨"A", 0, 0, -1⟩, ⟨"B", 0, 0, 1⟩]).length =>
      ((nodeIds [⟨"A", 0, 0, -1⟩, ⟨"B", 0, 0, 1⟩]).get i, (1 / 2 : ℝ)))
      = [("A", 1 / 2), ("B", 1 / 2)] := rfl
  rw [hlist]
  have hsort : sortRanks [("A", (1 / 2 : ℝ)), ("B", 1 / 2)] = [("A", 1 / 2), ("B", 1 / 2)] := by
    simp [sortRanks, List.insertionSort, List.orderedInsert, rankOrder]
  rw [hsort]

/-! ## Claims about the pipeline's error behaviour and ranking order -/

/-- Claim C9 counterexample: two patches with identical coordinates and
qualities tie at score `1/2`; the input lists `"B"` before `"A"`, and the
ranked output keeps `"B"` first even though `"A" < "B"`, so equal scores
are not ordered by identifier ascending (they keep input order). -/
theorem ranking_tiebreak_cex :
    runPipeline [⟨"B", 0, 0, 1⟩, ⟨"A", 0, 0, 1⟩] 15 (1 / 100) (17 / 20) (1 / 100) 1
        = Except.ok [("B", 1 / 2), ("A", 1 / 2)] ∧ ("A" : String) < "B" :=
  ⟨runPipeline_BA_eval, by rw [String.lt_iff_toList_lt]; decide⟩

theorem runPipeline_sorted_witness :
    ([("B", (1 / 2 : ℝ)), ("A", 1 / 2)].Sorted rankOrder) ∧
      ([("B", (1 / 2 : ℝ)), ("A", 1 / 2)].map Prod.fst).Perm
        (nodeIds [⟨"B", 0, 0, 1⟩, ⟨"A", 0, 0, 1⟩]) :=
  runPipeline_sorted runPipeline_BA_eval

/-- Claim C6 counterexample: two records share the identifier `"A"`, yet the
pipeline reports no error: it produces the ranking `[("A", 1)]`, the earlier
record having been silently collapsed into the same node. -/
theorem duplicate_ids_cex :
    runPipeline [⟨"A", 0, 0, 1⟩, ⟨"A", 5, 0, 2⟩] 15 (1 / 100) (17 / 20) (1 / 100) 1
      = Except.ok [("A", 1)] :=
  runPipeline_dup_eval

/-- Claim C6 amended: duplicate identifiers are not reported as an error:
the pipeline silently keeps one node per distinct identifier (later records
overwrite earlier ones) and, whenever the solver converges, still produces
a ranking with exactly one entry per distinct identifier. -/
theorem duplicate_ids_ranking {patches : List Patch} {d θ α tol : ℝ} {maxIter : ℕ}
    {r : List (String × ℝ)} (hdup : ¬ (patches.map Patch.id).Nodup)
    (h : runPipeline patches d θ α tol maxIter = Except.ok r) :
    (r.map Prod.fst).Nodup ∧ (r.map Prod.fst).Perm (nodeIds patches) := by
  have hperm := runPipeline_ok_ids h
  exact ⟨hperm.nodup_iff.mpr (nodeIds_nodup patches), hperm⟩

theorem duplicate_ids_ranking_witness :
    (¬ ((([⟨"A", 0, 0, 1⟩, ⟨"A", 5, 0, 2⟩] : List Patch).map Patch.id).Nodup)) ∧
      (([("A", (1 : ℝ))].map Prod.fst).Nodup ∧
        ([("A", (1 : ℝ))].map Prod.fst).Perm (nodeIds [⟨"A", 0, 0, 1⟩, ⟨"A", 5, 0, 2⟩])) :=
  ⟨by simp, duplicate_ids_ranking (by simp) runPipeline_dup_eval⟩

/-- Claim C7 counterexample: a record with negative quality triggers no
input-validation error: its pairs merely fail the strict threshold test
(the quality factor is NaN in the source's IEEE arithmetic and `0` in this
real-valued model; both fail `> threshold`), and the run still produces a
full ranking. -/
theorem negative_quality_cex :
    runPipeline [⟨"A", 0, 0, -1⟩, ⟨"B", 0, 0, 1⟩] 15 (1 / 100) (17 / 20) (1 / 100) 1
      = Except.ok [("A", 1 / 2), ("B", 1 / 2)] :=
  runPipeline_neg_eval

/-- Claim C7 amended: no input validation is performed: the weight
computation is total and the pipeline, whenever the solver converges, ranks
every record — including a record with negative quality, whose identifier
still appears in the output instead of being rejected. -/
theorem negative_quality_ranking {patches : List Patch} {d θ α tol : ℝ} {maxIter : ℕ}
    {r : List (String × ℝ)} {p : Patch} (hp : p ∈ patches) (hq : p.quality < 0)
    (h : runPipeline patches d θ α tol maxIter = Except.ok r) :
    p.id ∈ r.map Prod.fst :=
  ((runPipeline_ok_ids h).mem_iff).mpr (id_mem_nodeIds hp)

theorem negative_quality_ranking_witness :
    Patch.id ⟨"A", 0, 0, -1⟩ ∈ ([("A", (1 / 2 : ℝ)), ("B", 1 / 2)].map Prod.fst) :=
  negative_quality_ranking (p := ⟨"A", 0, 0, -1⟩) (by simp) (by norm_num)
    runPipeline_neg_eval
